import Mathlib

/-!
Verification of the asset-reporter scan engine (`asset_reporter.py`).

The Python code is shallowly embedded: dictionaries are association lists
iterated in insertion order (keys unique by construction), Python sets are
`Finset String`, raised exceptions are `Except` errors, and the report
printing loops are rendered as the structured data they emit.
-/

namespace AssetReporter

/-- Tag IDs are opaque strings; location tags carry the "LOCAT" prefix. -/
abbrev TagId := String

/-- A snapshot: mapping from location tag to the ordered list of asset
tags scanned under it (`tags_by_location` in the source). -/
abbrev Snapshot := List (TagId × List TagId)

/-- Asset-to-location index (`invert`'s result in the source). -/
abbrev AssetIndex := List (TagId × TagId)

/-- Source check `tag_id.startswith("LOCAT")`, expressed on the
string's character list so that it evaluates by kernel reduction. -/
def isLocationTag (t : TagId) : Bool := List.isPrefixOf "LOCAT".data t.data

/-- Python `d[k] = v` on an insertion-ordered dictionary: overwrite in
place when the key exists, append a fresh entry otherwise. -/
def setKey (d : Snapshot) (k : TagId) (v : List TagId) : Snapshot :=
  match d with
  | [] => [(k, v)]
  | (k', v') :: rest =>
      if k' = k then (k, v) :: rest else (k', v') :: setKey rest k v

/-- Python `d[k].append(a)`: append `a` to the list stored under `k`
(no effect when `k` is absent; the source only calls it on present keys). -/
def appendAt (d : Snapshot) (k : TagId) (a : TagId) : Snapshot :=
  match d with
  | [] => []
  | (k', v') :: rest =>
      if k' = k then (k', v' ++ [a]) :: rest else (k', v') :: appendAt rest k a

/-- Python `d[k]` lookup on a snapshot dictionary. -/
def getKey (d : Snapshot) (k : TagId) : Option (List TagId) :=
  match d with
  | [] => none
  | (k', v') :: rest => if k' = k then some v' else getKey rest k

/-- The loop body of `get_tags_by_location`: walk the tag list carrying
the accumulated dictionary and the current-location cursor. -/
def parseTags : List TagId → Snapshot → Option TagId → Except String Snapshot
  | [], d, _ => Except.ok d
  | t :: rest, d, loc =>
      if isLocationTag t then
        parseTags rest (setKey d t []) (some t)
      else
        match loc with
        | none => Except.error ("Location not specified for asset " ++ t)
        | some l => parseTags rest (appendAt d l t) loc

/-- Source function `get_tags_by_location(tag_ids)`: dictionary starts
empty, current location starts unset. -/
def get_tags_by_location (tag_ids : List TagId) : Except String Snapshot :=
  parseTags tag_ids [] none

/-- Python `d[k] = v` on the asset-to-location dictionary. -/
def putIdx (d : AssetIndex) (k v : TagId) : AssetIndex :=
  match d with
  | [] => [(k, v)]
  | (k', v') :: rest =>
      if k' = k then (k, v) :: rest else (k', v') :: putIdx rest k v

/-- Lookup in the asset-to-location dictionary (`d[asset]` / `asset in d`). -/
def lookupIdx (d : AssetIndex) (k : TagId) : Option TagId :=
  match d with
  | [] => none
  | (k', v') :: rest => if k' = k then some v' else lookupIdx rest k

/-- Source function `invert(d)`: `dict((v, k) for k in d for v in d[k])` —
build a dictionary pairing each listed asset with its location, later
duplicates overwriting earlier ones. -/
def invert (d : Snapshot) : AssetIndex :=
  d.foldl (fun acc p => p.2.foldl (fun acc2 v => putIdx acc2 v p.1) acc) []

/-- Source function `get_moved_assets(curr_assets_loc, prev_assets_loc)`:
assets present in both indices under differing locations, reported as
`(asset, prev_loc, curr_loc)` in the current index's iteration order. -/
def get_moved_assets (curr_assets_loc prev_assets_loc : AssetIndex) :
    List (TagId × TagId × TagId) :=
  curr_assets_loc.filterMap fun p =>
    match lookupIdx prev_assets_loc p.1 with
    | none => none
    | some prev_loc =>
        if p.2 ≠ prev_loc then some (p.1, prev_loc, p.2) else none

/-- Key set `set(d.keys())` of an asset-to-location dictionary. -/
def idxKeys (d : AssetIndex) : Finset String := (d.map Prod.fst).toFinset

/-- Key set `set(d.keys())` of a snapshot dictionary. -/
def snapKeys (d : Snapshot) : Finset String := (d.map Prod.fst).toFinset

/-- The structured content of the `_report_asset_changes` table: the rows
printed for new, missing (non-defunct) and moved assets. -/
structure AssetChanges where
  new_assets : Finset TagId
  missing_assets : Finset TagId
  moved_assets : List (TagId × TagId × TagId)
  deriving DecidableEq

/-- Source method `_report_asset_changes(prev_assets, curr_assets)`,
with `self._is_defunct` passed as the predicate `is_defunct`: invert both
snapshots, take the two set differences, and skip defunct assets when
emitting missing-asset rows. -/
def report_asset_changes (is_defunct : TagId → Bool)
    (prev_assets curr_assets : Snapshot) : AssetChanges :=
  let prev_assets_loc := invert prev_assets
  let curr_assets_loc := invert curr_assets
  let missed_assets := idxKeys prev_assets_loc \ idxKeys curr_assets_loc
  let new_assets := idxKeys curr_assets_loc \ idxKeys prev_assets_loc
  { new_assets := new_assets
    missing_assets := missed_assets.filter (fun a => ¬ is_defunct a = true)
    moved_assets := get_moved_assets curr_assets_loc prev_assets_loc }

/-- The raw percentage of `_report_scan_progress`:
`(len(curr_locations) * 100) / len(all_locations)` with Python 2 floor
division on integers. -/
def raw_scan_percentage (curr_assets : Snapshot)
    (all_locations : Finset String) : Nat :=
  (snapKeys curr_assets).card * 100 / all_locations.card

/-- The percentage finally displayed by `_report_scan_progress`: the raw
value, floored to 1 when it is 0, then capped at 100. -/
def report_scan_percentage (curr_assets : Snapshot)
    (all_locations : Finset String) : Nat :=
  let percentage := raw_scan_percentage curr_assets all_locations
  let percentage := if percentage = 0 then 1 else percentage
  if percentage > 100 then 100 else percentage

/-- The error raised when report generation is attempted with no ingested
scans: in the source, `max(self.assets_by_date.keys())` raises Python's
`ValueError` on an empty store; the spec's taxonomy names this
`EmptyStoreError`. -/
inductive ReportError
  | emptyStore
  deriving DecidableEq

/-- One dated section of the report: the progress percentage and the asset
changes printed by `gen_report` for a non-initial scan date. -/
structure ScanSection where
  scan_date : Nat
  percentage : Nat
  changes : AssetChanges

/-- The structured report produced by `gen_report`: the latest snapshot's
by-location inventory and the dated change sections. -/
structure Report where
  assets_by_location : Snapshot
  sections : List ScanSection

/-- Latest date `max(assets_by_date.keys())`: `none` on an empty store (Python raises
`ValueError` there). -/
def maxDate : List (Nat × Snapshot) → Option Nat
  | [] => none
  | (d, _) :: rest =>
      match maxDate rest with
      | none => some d
      | some m => some (max d m)

/-- Store lookup `assets_by_date[date]`. -/
def getDate (l : List (Nat × Snapshot)) (date : Nat) : Option Snapshot :=
  match l with
  | [] => none
  | (d, s) :: rest => if d = date then some s else getDate rest date

/-- Insert one dated snapshot into a date-sorted list. -/
def insertByDate (p : Nat × Snapshot) :
    List (Nat × Snapshot) → List (Nat × Snapshot)
  | [] => [p]
  | q :: rest => if p.1 ≤ q.1 then p :: q :: rest else q :: insertByDate p rest

/-- Date order `sorted(assets_by_date.keys())`: iterate the store in ascending date
order (insertion sort on the date component). -/
def sortByDate : List (Nat × Snapshot) → List (Nat × Snapshot)
  | [] => []
  | p :: rest => insertByDate p (sortByDate rest)

/-- The date-ordered loop of `gen_report`: pair each snapshot with its
predecessor, skipping the first (it has no predecessor), and emit a dated
section of progress and changes for each remaining date. -/
def report_sections (is_defunct : TagId → Bool) (all_locations : Finset String) :
    List (Nat × Snapshot) → List ScanSection
  | [] => []
  | [_] => []
  | (_, s1) :: (d2, s2) :: rest =>
      ⟨d2, report_scan_percentage s2 all_locations,
        report_asset_changes is_defunct s1 s2⟩ ::
      report_sections is_defunct all_locations ((d2, s2) :: rest)

/-- Source method `gen_report`, as the structured document it prints:
find the latest scan date (failing on an empty store), report the latest
snapshot by location, then walk the dates in ascending order emitting a
progress-and-changes section per non-initial date. -/
def gen_report (is_defunct : TagId → Bool) (all_locations : Finset String)
    (assets_by_date : List (Nat × Snapshot)) : Except ReportError Report :=
  match maxDate assets_by_date with
  | none => Except.error ReportError.emptyStore
  | some last =>
      Except.ok
        { assets_by_location := (getDate assets_by_date last).getD []
          sections := report_sections is_defunct all_locations
            (sortByDate assets_by_date) }

/-- Flatten a snapshot back to a tag sequence: each location key followed
by its asset list, in the snapshot's (insertion) order. -/
def flattenSnapshot (d : Snapshot) : List TagId :=
  (d.map fun p => p.1 :: p.2).flatten

/-- Proof-side variant of `parseTags` that also returns the final
current-location cursor, used to decompose runs of the parser. -/
def parseStep : List TagId → Snapshot → Option TagId →
    Except String (Snapshot × Option TagId)
  | [], d, loc => Except.ok (d, loc)
  | t :: rest, d, loc =>
      if isLocationTag t then
        parseStep rest (setKey d t []) (some t)
      else
        match loc with
        | none => Except.error ("Location not specified for asset " ++ t)
        | some l => parseStep rest (appendAt d l t) loc

end AssetReporter

namespace AssetReporter

theorem getKey_setKey_self : ∀ (d : Snapshot) (k : TagId) (v : List TagId),
    getKey (setKey d k v) k = some v
  | [], k, v => by simp [setKey, getKey]
  | (k', v') :: rest, k, v => by
      by_cases h : k' = k
      · simp [setKey, h, getKey]
      · simp [setKey, h, getKey, getKey_setKey_self rest k v]

theorem getKey_setKey_ne : ∀ (d : Snapshot) (k k' : TagId) (v : List TagId),
    k' ≠ k → getKey (setKey d k v) k' = getKey d k'
  | [], k, k', v, h => by simp [setKey, getKey, Ne.symm h]
  | (k₀, v₀) :: rest, k, k', v, h => by
      by_cases h0 : k₀ = k
      · have h2 : k₀ ≠ k' := by
          rw [h0]
          exact Ne.symm h
        simp [setKey, h0, getKey, h2, Ne.symm h]
      · by_cases h1 : k₀ = k'
        · simp [setKey, h0, getKey, h1, h]
        · simp [setKey, h0, getKey, h1, getKey_setKey_ne rest k k' v h]

theorem getKey_appendAt_self : ∀ (d : Snapshot) (k a : TagId),
    getKey (appendAt d k a) k = (getKey d k).map (fun w => w ++ [a])
  | [], k, a => by simp [appendAt, getKey]
  | (k₀, v₀) :: rest, k, a => by
      by_cases h : k₀ = k
      · simp [appendAt, h, getKey]
      · simp [appendAt, h, getKey, getKey_appendAt_self rest k a]

theorem getKey_appendAt_ne : ∀ (d : Snapshot) (k k' a : TagId),
    k' ≠ k → getKey (appendAt d k a) k' = getKey d k'
  | [], k, k', a, _ => by simp [appendAt]
  | (k₀, v₀) :: rest, k, k', a, h => by
      by_cases h0 : k₀ = k
      · have h2 : k₀ ≠ k' := by
          rw [h0]
          exact Ne.symm h
        simp [appendAt, h0, getKey, h2, Ne.symm h]
      · by_cases h1 : k₀ = k'
        · simp [appendAt, h0, getKey, h1, h]
        · simp [appendAt, h0, getKey, h1, getKey_appendAt_ne rest k k' a h]

theorem keys_appendAt : ∀ (d : Snapshot) (k a : TagId),
    (appendAt d k a).map Prod.fst = d.map Prod.fst
  | [], k, a => by simp [appendAt]
  | (k₀, v₀) :: rest, k, a => by
      by_cases h : k₀ = k
      · simp [appendAt, h]
      · simp [appendAt, h, keys_appendAt rest k a]

theorem setKey_not_mem : ∀ (d : Snapshot) (k : TagId) (v : List TagId),
    k ∉ d.map Prod.fst → setKey d k v = d ++ [(k, v)]
  | [], k, v, _ => by simp [setKey]
  | (k₀, v₀) :: rest, k, v, h => by
      have hne : k₀ ≠ k := by
        intro he
        exact h (by simp [he])
      have hrest : k ∉ rest.map Prod.fst := by
        intro hm
        exact h (by simp [hm])
      simp [setKey, hne, setKey_not_mem rest k v hrest]

theorem appendAt_last : ∀ (d₀ : Snapshot) (l a : TagId) (v : List TagId),
    l ∉ d₀.map Prod.fst →
    appendAt (d₀ ++ [(l, v)]) l a = d₀ ++ [(l, v ++ [a])]
  | [], l, a, v, _ => by simp [appendAt]
  | (k₀, v₀) :: rest, l, a, v, h => by
      have hne : k₀ ≠ l := by
        intro he
        exact h (by simp [he])
      have hrest : l ∉ rest.map Prod.fst := by
        intro hm
        exact h (by simp [hm])
      simp [appendAt, hne, appendAt_last rest l a v hrest]

theorem mem_keys_setKey : ∀ (d : Snapshot) (k : TagId) (v : List TagId) (t : TagId),
    t ∈ (setKey d k v).map Prod.fst ↔ t ∈ d.map Prod.fst ∨ t = k
  | [], k, v, t => by simp [setKey]
  | (k₀, v₀) :: rest, k, v, t => by
      by_cases h : k₀ = k
      · subst h
        simp [setKey]
        tauto
      · simp [setKey, h, mem_keys_setKey rest k v t]
        tauto

theorem flattenSnapshot_append_single (d : Snapshot) (k : TagId) (v : List TagId) :
    flattenSnapshot (d ++ [(k, v)]) = flattenSnapshot d ++ k :: v := by
  simp [flattenSnapshot]

theorem mem_keys_putIdx : ∀ (d : AssetIndex) (k v t : TagId),
    t ∈ (putIdx d k v).map Prod.fst ↔ t ∈ d.map Prod.fst ∨ t = k
  | [], k, v, t => by simp [putIdx]
  | (k₀, v₀) :: rest, k, v, t => by
      by_cases h : k₀ = k
      · subst h
        simp [putIdx]
        tauto
      · simp [putIdx, h, mem_keys_putIdx rest k v t]
        tauto

theorem nodup_keys_putIdx : ∀ (d : AssetIndex) (k v : TagId),
    (d.map Prod.fst).Nodup → ((putIdx d k v).map Prod.fst).Nodup
  | [], k, v, _ => by simp [putIdx]
  | (k₀, v₀) :: rest, k, v, h => by
      rw [List.map_cons, List.nodup_cons] at h
      by_cases h0 : k₀ = k
      · subst h0
        simp only [putIdx, eq_self_iff_true, if_true, List.map_cons, List.nodup_cons]
        exact h
      · have hrest := nodup_keys_putIdx rest k v h.2
        have hnm : k₀ ∉ (putIdx rest k v).map Prod.fst := by
          intro hmem
          rcases (mem_keys_putIdx rest k v k₀).mp hmem with hin | he
          · exact h.1 hin
          · exact h0 he
        simp only [putIdx, h0, if_false, List.map_cons, List.nodup_cons]
        exact ⟨hnm, hrest⟩

theorem nodup_keys_putIdx_fold : ∀ (vs : List TagId) (k : TagId) (acc : AssetIndex),
    (acc.map Prod.fst).Nodup →
    ((vs.foldl (fun a v => putIdx a v k) acc).map Prod.fst).Nodup
  | [], _, _, h => h
  | v :: rest, k, acc, h =>
      nodup_keys_putIdx_fold rest k (putIdx acc v k) (nodup_keys_putIdx acc v k h)

theorem nodup_keys_invert_aux : ∀ (d : Snapshot) (acc : AssetIndex),
    (acc.map Prod.fst).Nodup →
    ((d.foldl (fun acc2 p => p.2.foldl (fun a v => putIdx a v p.1) acc2) acc).map
      Prod.fst).Nodup
  | [], _, h => h
  | p :: rest, acc, h =>
      nodup_keys_invert_aux rest _ (nodup_keys_putIdx_fold p.2 p.1 acc h)

/-- The asset-to-location dictionary built by `invert` has no duplicate
asset keys (later insertions overwrite earlier ones). -/
theorem nodup_keys_invert (d : Snapshot) : ((invert d).map Prod.fst).Nodup :=
  nodup_keys_invert_aux d [] (by simp)

theorem lookupIdx_isSome_iff : ∀ (d : AssetIndex) (k : TagId),
    (lookupIdx d k).isSome = true ↔ k ∈ d.map Prod.fst
  | [], k => by simp [lookupIdx]
  | (k₀, v₀) :: rest, k => by
      by_cases h : k₀ = k
      · simp [lookupIdx, h]
      · simp [lookupIdx, h, lookupIdx_isSome_iff rest k, Ne.symm h]

theorem lookupIdx_eq_some_iff_mem : ∀ (d : AssetIndex),
    (d.map Prod.fst).Nodup → ∀ k v : TagId,
    (lookupIdx d k = some v ↔ (k, v) ∈ d)
  | [], _, k, v => by simp [lookupIdx]
  | (k₀, v₀) :: rest, hd, k, v => by
      rw [List.map_cons, List.nodup_cons] at hd
      by_cases h : k₀ = k
      · subst h
        simp only [lookupIdx, eq_self_iff_true, if_true]
        constructor
        · intro he
          have hv : v₀ = v := by
            injection he
          rw [← hv]
          exact List.mem_cons_self _ _
        · intro hmem
          rcases List.mem_cons.mp hmem with he | hin
          · have hv : v = v₀ := congrArg Prod.snd he
            rw [hv]
          · exact absurd (List.mem_map_of_mem Prod.fst hin) hd.1
      · simp only [lookupIdx, h, if_false]
        rw [lookupIdx_eq_some_iff_mem rest hd.2 k v]
        constructor
        · exact fun hin => List.mem_cons_of_mem _ hin
        · intro hmem
          rcases List.mem_cons.mp hmem with he | hin
          · exact absurd (congrArg Prod.fst he).symm h
          · exact hin

theorem parseTags_eq_parseStep : ∀ (tags : List TagId) (d : Snapshot)
    (loc : Option TagId),
    parseTags tags d loc = (parseStep tags d loc).map Prod.fst
  | [], d, loc => by simp [parseTags, parseStep, Except.map]
  | t :: rest, d, loc => by
      by_cases h : isLocationTag t = true
      · simp [parseTags, parseStep, h, parseTags_eq_parseStep rest]
      · cases loc with
        | none => simp [parseTags, parseStep, h, Except.map]
        | some l => simp [parseTags, parseStep, h, parseTags_eq_parseStep rest]

theorem parseStep_append : ∀ (xs ys : List TagId) (d : Snapshot)
    (loc : Option TagId),
    parseStep (xs ++ ys) d loc =
      (parseStep xs d loc).bind (fun s => parseStep ys s.1 s.2)
  | [], ys, d, loc => by simp [parseStep, Except.bind]
  | t :: xs, ys, d, loc => by
      by_cases h : isLocationTag t = true
      · simp [parseStep, h, parseStep_append xs ys]
      · cases loc with
        | none => simp [parseStep, h, Except.bind]
        | some l => simp [parseStep, h, parseStep_append xs ys]

theorem parseStep_some_ok : ∀ (tags : List TagId) (d : Snapshot) (l : TagId),
    ∃ d' l', parseStep tags d (some l) = Except.ok (d', some l')
  | [], d, l => ⟨d, l, rfl⟩
  | t :: rest, d, l => by
      by_cases h : isLocationTag t = true
      · obtain ⟨d', l', he⟩ := parseStep_some_ok rest (setKey d t []) t
        exact ⟨d', l', by simp [parseStep, h, he]⟩
      · obtain ⟨d', l', he⟩ := parseStep_some_ok rest (appendAt d l t) l
        exact ⟨d', l', by simp [parseStep, h, he]⟩

theorem parseStep_preserve_getKey : ∀ (zs : List TagId) (d : Snapshot)
    (l loc : TagId),
    l ≠ loc → loc ∉ zs →
    ∀ (d' : Snapshot) (l' : Option TagId),
    parseStep zs d (some l) = Except.ok (d', l') →
    getKey d' loc = getKey d loc
  | [], d, l, loc, _, _, d', l', h => by
      simp [parseStep] at h
      rw [← h.1]
  | t :: zs, d, l, loc, hne, hmem, d', l', h => by
      have hmem' : loc ∉ zs := fun hc => hmem (List.mem_cons_of_mem _ hc)
      have htne : t ≠ loc := fun hc => hmem (hc ▸ List.mem_cons_self _ _)
      by_cases ht : isLocationTag t = true
      · simp only [parseStep, ht, if_true] at h
        have := parseStep_preserve_getKey zs (setKey d t []) t loc htne hmem' d' l' h
        rw [this, getKey_setKey_ne d t loc [] (Ne.symm htne)]
      · simp only [parseStep, ht, Bool.false_eq_true, if_false] at h
        have := parseStep_preserve_getKey zs (appendAt d l t) l loc hne hmem' d' l' h
        rw [this, getKey_appendAt_ne d l loc t (Ne.symm hne)]

theorem parseStep_assets : ∀ (ys : List TagId) (d : Snapshot) (l : TagId),
    (∀ a ∈ ys, isLocationTag a = false) →
    ∃ d', parseStep ys d (some l) = Except.ok (d', some l) ∧
      getKey d' l = (getKey d l).map (fun w => w ++ ys)
  | [], d, l, _ => ⟨d, rfl, by cases getKey d l <;> simp⟩
  | a :: ys, d, l, h => by
      have ha : isLocationTag a = false := h a (List.mem_cons_self _ _)
      obtain ⟨d', he, hk⟩ :=
        parseStep_assets ys (appendAt d l a) l
          (fun x hx => h x (List.mem_cons_of_mem _ hx))
      refine ⟨d', ?_, ?_⟩
      · simp [parseStep, ha, he]
      · rw [hk, getKey_appendAt_self]
        cases getKey d l <;> simp

theorem parseTags_flatten : ∀ (tags : List TagId) (d₀ : Snapshot) (l : TagId)
    (v : List TagId),
    (tags.filter (fun x => isLocationTag x)).Nodup →
    (∀ t ∈ tags, isLocationTag t = true → t ∉ (d₀ ++ [(l, v)]).map Prod.fst) →
    l ∉ d₀.map Prod.fst →
    ∃ d', parseTags tags (d₀ ++ [(l, v)]) (some l) = Except.ok d' ∧
      flattenSnapshot d' = flattenSnapshot (d₀ ++ [(l, v)]) ++ tags
  | [], d₀, l, v, _, _, _ => ⟨_, rfl, by simp⟩
  | t :: tags, d₀, l, v, hnd, hkeys, hl => by
      by_cases ht : isLocationTag t = true
      · have htk : t ∉ (d₀ ++ [(l, v)]).map Prod.fst :=
          hkeys t (List.mem_cons_self _ _) ht
        have hfilter : (t :: tags).filter (fun x => isLocationTag x) =
            t :: tags.filter (fun x => isLocationTag x) := by
          simp [List.filter_cons, ht]
        rw [hfilter, List.nodup_cons] at hnd
        have hkeys' : ∀ x ∈ tags, isLocationTag x = true →
            x ∉ ((d₀ ++ [(l, v)]) ++ [(t, [])]).map Prod.fst := by
          intro x hx hxl
          have hxd : x ∉ (d₀ ++ [(l, v)]).map Prod.fst :=
            hkeys x (List.mem_cons_of_mem _ hx) hxl
          have hxt : x ≠ t := by
            intro he
            exact hnd.1 (he ▸ List.mem_filter.mpr ⟨hx, by simp [hxl]⟩)
          simp only [List.map_append, List.mem_append] at hxd ⊢
          rintro (hc | hc)
          · exact hxd hc
          · simp at hc
            exact hxt hc
        have hl' : t ∉ (d₀ ++ [(l, v)]).map Prod.fst := htk
        obtain ⟨d', hok, hfl⟩ :=
          parseTags_flatten tags (d₀ ++ [(l, v)]) t [] hnd.2 hkeys' hl'
        refine ⟨d', ?_, ?_⟩
        · simp only [parseTags, ht, if_true]
          rw [setKey_not_mem _ _ _ htk]
          exact hok
        · rw [hfl, flattenSnapshot_append_single]
          simp
      · have hfilter : (t :: tags).filter (fun x => isLocationTag x) =
            tags.filter (fun x => isLocationTag x) := by
          simp [List.filter_cons, ht]
        rw [hfilter] at hnd
        have hkeys' : ∀ x ∈ tags, isLocationTag x = true →
            x ∉ (d₀ ++ [(l, v ++ [t])]).map Prod.fst := by
          intro x hx hxl
          have := hkeys x (List.mem_cons_of_mem _ hx) hxl
          simpa using this
        obtain ⟨d', hok, hfl⟩ :=
          parseTags_flatten tags d₀ l (v ++ [t]) hnd hkeys' hl
        refine ⟨d', ?_, ?_⟩
        · simp only [parseTags, ht, Bool.false_eq_true, if_false]
          rw [appendAt_last d₀ l t v hl]
          exact hok
        · rw [hfl, flattenSnapshot_append_single, flattenSnapshot_append_single]
          simp

theorem parseTags_keys : ∀ (tags : List TagId) (d : Snapshot)
    (loc : Option TagId) (d' : Snapshot),
    parseTags tags d loc = Except.ok d' →
    ∀ t, t ∈ d'.map Prod.fst ↔
      t ∈ d.map Prod.fst ∨ (t ∈ tags ∧ isLocationTag t = true)
  | [], d, loc, d', h, t => by
      simp only [parseTags, Except.ok.injEq] at h
      subst h
      simp
  | x :: tags, d, loc, d', h, t => by
      by_cases hx : isLocationTag x = true
      · simp only [parseTags, hx, if_true] at h
        have ih := parseTags_keys tags (setKey d x []) (some x) d' h t
        rw [ih, mem_keys_setKey]
        constructor
        · rintro ((hd | he) | ⟨ht, hl⟩)
          · exact Or.inl hd
          · subst he
            exact Or.inr ⟨List.mem_cons_self _ _, hx⟩
          · exact Or.inr ⟨List.mem_cons_of_mem _ ht, hl⟩
        · rintro (hd | ⟨hmem, hl⟩)
          · exact Or.inl (Or.inl hd)
          · rcases List.mem_cons.mp hmem with he | hin
            · exact Or.inl (Or.inr he)
            · exact Or.inr ⟨hin, hl⟩
      · cases loc with
        | none => simp [parseTags, hx] at h
        | some l =>
            simp only [parseTags, hx, Bool.false_eq_true, if_false] at h
            have ih := parseTags_keys tags (appendAt d l x) (some l) d' h t
            rw [ih, keys_appendAt]
            constructor
            · rintro (hd | ⟨ht, hl⟩)
              · exact Or.inl hd
              · exact Or.inr ⟨List.mem_cons_of_mem _ ht, hl⟩
            · rintro (hd | ⟨hmem, hl⟩)
              · exact Or.inl hd
              · rcases List.mem_cons.mp hmem with he | hin
                · subst he
                  exact absurd hl hx
                · exact Or.inr ⟨hin, hl⟩

theorem noLoc_setKey_nil : ∀ (d : Snapshot) (k : TagId),
    (∀ p ∈ d, ∀ a ∈ p.2, isLocationTag a = false) →
    ∀ p ∈ setKey d k [], ∀ a ∈ p.2, isLocationTag a = false
  | [], k, _ => by simp [setKey]
  | (k₀, v₀) :: rest, k, h => by
      by_cases h0 : k₀ = k
      · subst h0
        simp only [setKey, eq_self_iff_true, if_true]
        intro p hp
        rcases List.mem_cons.mp hp with he | hin
        · subst he
          simp
        · exact h p (List.mem_cons_of_mem _ hin)
      · simp only [setKey, h0, if_false]
        intro p hp
        rcases List.mem_cons.mp hp with he | hin
        · subst he
          exact h _ (List.mem_cons_self _ _)
        · exact noLoc_setKey_nil rest k
            (fun q hq => h q (List.mem_cons_of_mem _ hq)) p hin

theorem noLoc_appendAt : ∀ (d : Snapshot) (k a : TagId),
    isLocationTag a = false →
    (∀ p ∈ d, ∀ x ∈ p.2, isLocationTag x = false) →
    ∀ p ∈ appendAt d k a, ∀ x ∈ p.2, isLocationTag x = false
  | [], k, a, _, _ => by simp [appendAt]
  | (k₀, v₀) :: rest, k, a, ha, h => by
      by_cases h0 : k₀ = k
      · simp only [appendAt, h0, if_true]
        intro p hp
        rcases List.mem_cons.mp hp with he | hin
        · subst he
          intro x hx
          rcases List.mem_append.mp hx with hv | hone
          · exact h _ (List.mem_cons_self _ _) x hv
          · rw [List.mem_singleton.mp hone]
            exact ha
        · exact h p (List.mem_cons_of_mem _ hin)
      · simp only [appendAt, h0, if_false]
        intro p hp
        rcases List.mem_cons.mp hp with he | hin
        · subst he
          exact h _ (List.mem_cons_self _ _)
        · exact noLoc_appendAt rest k a ha
            (fun q hq => h q (List.mem_cons_of_mem _ hq)) p hin

theorem parseTags_values : ∀ (tags : List TagId) (d : Snapshot)
    (loc : Option TagId) (d' : Snapshot),
    parseTags tags d loc = Except.ok d' →
    (∀ p ∈ d, ∀ a ∈ p.2, isLocationTag a = false) →
    ∀ p ∈ d', ∀ a ∈ p.2, isLocationTag a = false
  | [], d, loc, d', h, hd => by
      simp only [parseTags, Except.ok.injEq] at h
      subst h
      exact hd
  | x :: tags, d, loc, d', h, hd => by
      by_cases hx : isLocationTag x = true
      · simp only [parseTags, hx, if_true] at h
        exact parseTags_values tags (setKey d x []) (some x) d' h
          (noLoc_setKey_nil d x hd)
      · cases loc with
        | none => simp [parseTags, hx] at h
        | some l =>
            simp only [parseTags, hx, Bool.false_eq_true, if_false] at h
            exact parseTags_values tags (appendAt d l x) (some l) d' h
              (noLoc_appendAt d l x (Bool.not_eq_true _ |>.mp hx) hd)

/-- C10: on a successful parse, the mapping's keys are exactly the
LOCAT-prefixed tags occurring in the input (every scanned location is a
key, even with an empty asset list), and no LOCAT-prefixed tag appears in
any location's asset list. -/
theorem parse_keys_are_exactly_locations (tags : List TagId) (d : Snapshot)
    (h : get_tags_by_location tags = Except.ok d) :
    (∀ t, t ∈ d.map Prod.fst ↔ (t ∈ tags ∧ isLocationTag t = true)) ∧
    (∀ p ∈ d, ∀ a ∈ p.2, isLocationTag a = false) := by
  constructor
  · intro t
    have := parseTags_keys tags [] none d h t
    simpa using this
  · exact parseTags_values tags [] none d h (by simp)

/-- C10 witness: the keys/values invariant evaluated on a concrete scan. -/
theorem parse_keys_are_exactly_locations_witness :
    (("LOCAT2" ∈ ([("LOCAT1", ["A1"]), ("LOCAT2", [])] : Snapshot).map Prod.fst) ↔
      ("LOCAT2" ∈ ["LOCAT1", "A1", "LOCAT2"] ∧ isLocationTag "LOCAT2" = true)) ∧
    (∀ p ∈ ([("LOCAT1", ["A1"]), ("LOCAT2", [])] : Snapshot),
      ∀ a ∈ p.2, isLocationTag a = false) :=
  ⟨(parse_keys_are_exactly_locations ["LOCAT1", "A1", "LOCAT2"]
      [("LOCAT1", ["A1"]), ("LOCAT2", [])] rfl).1 "LOCAT2",
   (parse_keys_are_exactly_locations ["LOCAT1", "A1", "LOCAT2"]
      [("LOCAT1", ["A1"]), ("LOCAT2", [])] rfl).2⟩

/-- C3: parsing fails (with the structural "Location not specified" error)
exactly when some asset tag occurs with no location tag anywhere before it
— equivalently, on every non-empty input whose first tag is not a
location tag, and on no other input. -/
theorem parse_error_iff_asset_before_location (tags : List TagId) :
    (∃ e, get_tags_by_location tags = Except.error e) ↔
    ∃ pre a post, tags = pre ++ a :: post ∧ isLocationTag a = false ∧
      ∀ t ∈ pre, isLocationTag t = false := by
  cases tags with
  | nil =>
      constructor
      · rintro ⟨e, he⟩
        simp [get_tags_by_location, parseTags] at he
      · rintro ⟨pre, a, post, he, _, _⟩
        cases pre <;> simp at he
  | cons t rest =>
      by_cases ht : isLocationTag t = true
      · constructor
        · rintro ⟨e, he⟩
          obtain ⟨d', l', hok⟩ := parseStep_some_ok rest (setKey [] t []) t
          rw [get_tags_by_location, parseTags_eq_parseStep] at he
          simp only [parseStep, ht, if_true] at he
          rw [hok] at he
          simp [Except.map] at he
        · rintro ⟨pre, a, post, he, ha, hpre⟩
          cases pre with
          | nil =>
              simp at he
              rw [he.1] at ht
              rw [ht] at ha
              exact absurd ha (by simp)
          | cons p pre' =>
              simp at he
              have := hpre p (List.mem_cons_self _ _)
              rw [he.1] at ht
              rw [ht] at this
              exact absurd this (by simp)
      · have ht' : isLocationTag t = false := Bool.not_eq_true _ |>.mp ht
        constructor
        · intro _
          exact ⟨[], t, rest, rfl, ht', by simp⟩
        · intro _
          refine ⟨"Location not specified for asset " ++ t, ?_⟩
          simp [get_tags_by_location, parseTags, ht']

/-- C1 counterexample: re-scanning `LOCAT1` discards the asset `A1`
recorded under it earlier; the entry ends up `["A2"]`, not the
`["A1", "A2"]` the claim's "preserving earlier assets" requires. -/
theorem repeated_location_counterexample :
    get_tags_by_location ["LOCAT1", "A1", "LOCAT1", "A2"] =
      Except.ok [("LOCAT1", ["A2"])] ∧
    getKey [("LOCAT1", ["A2"])] "LOCAT1" ≠ some ["A1", "A2"] :=
  ⟨rfl, by decide⟩

/-- C1 (amended): a later repeat of a Location tag re-opens the entry as a
fresh empty list rather than erroring — on a successful parse, a
location's final entry holds exactly the asset tags scanned after its last
occurrence (up to the next location tag); assets recorded under earlier
occurrences are discarded. -/
theorem repeated_location_resets_entry (xs ys zs : List TagId) (loc : TagId)
    (d : Snapshot)
    (hloc : isLocationTag loc = true)
    (hys : ∀ a ∈ ys, isLocationTag a = false)
    (hzs : loc ∉ zs)
    (hzhead : zs = [] ∨ ∃ t zs', zs = t :: zs' ∧ isLocationTag t = true)
    (hparse : get_tags_by_location (xs ++ loc :: (ys ++ zs)) = Except.ok d) :
    getKey d loc = some ys := by
  rw [get_tags_by_location, parseTags_eq_parseStep, parseStep_append] at hparse
  cases h1 : parseStep xs [] none with
  | error e =>
      rw [h1] at hparse
      simp [Except.bind, Except.map] at hparse
  | ok s =>
      rw [h1] at hparse
      obtain ⟨d₁, loc₁⟩ := s
      simp only [Except.bind] at hparse
      simp only [parseStep, hloc, if_true] at hparse
      rw [parseStep_append] at hparse
      obtain ⟨d₂, hst, hget⟩ := parseStep_assets ys (setKey d₁ loc []) loc hys
      rw [hst] at hparse
      simp only [Except.bind] at hparse
      have hd₂ : getKey d₂ loc = some ys := by
        rw [hget, getKey_setKey_self]
        simp
      rcases hzhead with hz | ⟨t, zs', hz, htl⟩
      · subst hz
        simp only [parseStep, Except.map] at hparse
        have hde : d₂ = d := by
          injection hparse
        rw [← hde]
        exact hd₂
      · subst hz
        have htloc : t ≠ loc := fun hc => hzs (hc ▸ List.mem_cons_self _ _)
        have hzs' : loc ∉ zs' := fun hc => hzs (List.mem_cons_of_mem _ hc)
        simp only [parseStep, htl, if_true] at hparse
        cases h2 : parseStep zs' (setKey d₂ t []) (some t) with
        | error e =>
            rw [h2] at hparse
            simp [Except.map] at hparse
        | ok s2 =>
            obtain ⟨d₃, l₃⟩ := s2
            rw [h2] at hparse
            simp only [Except.map, Except.ok.injEq] at hparse
            have hp := parseStep_preserve_getKey zs' (setKey d₂ t []) t loc
              htloc hzs' d₃ l₃ h2
            rw [← hparse, hp, getKey_setKey_ne d₂ t loc [] (Ne.symm htloc)]
            exact hd₂

/-- C1 witness: the amended statement evaluated on the counterexample
scan, showing the repeat's entry holds only the later asset. -/
theorem repeated_location_resets_entry_witness :
    get_tags_by_location ["LOCAT1", "A1", "LOCAT1", "A2"] =
      Except.ok [("LOCAT1", ["A2"])] ∧
    getKey [("LOCAT1", ["A2"])] "LOCAT1" = some ["A2"] :=
  ⟨rfl, repeated_location_resets_entry ["LOCAT1", "A1"] ["A2"] [] "LOCAT1"
    [("LOCAT1", ["A2"])] (by decide) (by decide) (by simp) (Or.inl rfl) rfl⟩

/-- C2 counterexample: a tag sequence that begins with a location tag but
revisits it parses successfully, yet flattening the snapshot yields
`["LOCAT1"]`, not the original three-tag sequence. -/
theorem roundtrip_counterexample :
    isLocationTag "LOCAT1" = true ∧
    get_tags_by_location ["LOCAT1", "A1", "LOCAT1"] =
      Except.ok [("LOCAT1", [])] ∧
    flattenSnapshot [("LOCAT1", [])] ≠ ["LOCAT1", "A1", "LOCAT1"] :=
  ⟨by decide, rfl, by decide⟩

/-- C2 (amended): for a raw tag sequence whose first tag is a location tag
and in which no location tag occurs twice, parsing succeeds and flattening
the snapshot (each location key followed by its asset list, in insertion
order) reproduces the original sequence exactly. -/
theorem roundtrip_nodup_locations (t : TagId) (tags : List TagId)
    (hloc : isLocationTag t = true)
    (hnd : ((t :: tags).filter (fun x => isLocationTag x)).Nodup) :
    (get_tags_by_location (t :: tags)).map flattenSnapshot =
      Except.ok (t :: tags) := by
  have hf : (t :: tags).filter (fun x => isLocationTag x) =
      t :: tags.filter (fun x => isLocationTag x) := by
    simp [List.filter_cons, hloc]
  rw [hf, List.nodup_cons] at hnd
  have hkeys : ∀ x ∈ tags, isLocationTag x = true →
      x ∉ (([] : Snapshot) ++ [(t, [])]).map Prod.fst := by
    intro x hx hxl
    simp only [List.nil_append, List.map_cons, List.map_nil,
      List.mem_singleton]
    intro he
    exact hnd.1 (he ▸ List.mem_filter.mpr ⟨hx, by simp [hxl]⟩)
  obtain ⟨d', hok, hfl⟩ :=
    parseTags_flatten tags [] t [] hnd.2 hkeys (by simp)
  have hok' : parseTags tags [(t, [])] (some t) = Except.ok d' := by
    simpa using hok
  have hfl' : flattenSnapshot d' = t :: tags := by
    rw [hfl]
    simp [flattenSnapshot]
  rw [get_tags_by_location]
  simp only [parseTags, hloc, if_true]
  rw [show setKey ([] : Snapshot) t [] = [(t, [])] from rfl, hok']
  simp [Except.map, hfl']

/-- C2 witness: the amended round-trip evaluated on a concrete two-location
scan. -/
theorem roundtrip_nodup_locations_witness :
    (get_tags_by_location ["LOCAT1", "A1", "LOCAT2", "A2"]).map
      flattenSnapshot = Except.ok ["LOCAT1", "A1", "LOCAT2", "A2"] :=
  roundtrip_nodup_locations "LOCAT1" ["A1", "LOCAT2", "A2"] (by decide)
    (by decide)

/-- C4: an asset indexed under `L1` in the previous snapshot and under
`L2 ≠ L1` in the current one is reported in the moved list exactly as the
triple `(asset, L1, L2)`, and appears in neither the new nor the missing
set. -/
theorem moved_asset_reported (is_defunct : TagId → Bool) (A B : Snapshot)
    (a L1 L2 : TagId)
    (hprev : lookupIdx (invert A) a = some L1)
    (hcurr : lookupIdx (invert B) a = some L2)
    (hne : L1 ≠ L2) :
    (a, L1, L2) ∈ (report_asset_changes is_defunct A B).moved_assets ∧
    (∀ m ∈ (report_asset_changes is_defunct A B).moved_assets,
      m.1 = a → m = (a, L1, L2)) ∧
    a ∉ (report_asset_changes is_defunct A B).new_assets ∧
    a ∉ (report_asset_changes is_defunct A B).missing_assets := by
  have haprev : a ∈ idxKeys (invert A) := by
    rw [idxKeys, List.mem_toFinset, ← lookupIdx_isSome_iff]
    rw [hprev]
    rfl
  have hacurr : a ∈ idxKeys (invert B) := by
    rw [idxKeys, List.mem_toFinset, ← lookupIdx_isSome_iff]
    rw [hcurr]
    rfl
  refine ⟨?_, ?_, ?_, ?_⟩
  · show (a, L1, L2) ∈ get_moved_assets (invert B) (invert A)
    rw [get_moved_assets, List.mem_filterMap]
    refine ⟨(a, L2), ?_, ?_⟩
    · exact (lookupIdx_eq_some_iff_mem (invert B) (nodup_keys_invert B)
        a L2).mp hcurr
    · simp [hprev, Ne.symm hne]
  · intro m hm hma
    replace hm : m ∈ get_moved_assets (invert B) (invert A) := hm
    rw [get_moved_assets, List.mem_filterMap] at hm
    obtain ⟨p, hp, hfp⟩ := hm
    cases hl : lookupIdx (invert A) p.1 with
    | none => rw [hl] at hfp; simp at hfp
    | some pl =>
        rw [hl] at hfp
        dsimp only at hfp
        by_cases hplne : p.2 ≠ pl
        · rw [if_pos hplne] at hfp
          have hm : m = (p.1, pl, p.2) := by
            injection hfp with h'
            exact h'.symm
          have hpa : p.1 = a := by
            rw [hm] at hma
            exact hma
          have hpmem : (a, p.2) ∈ invert B := by
            rw [← hpa]
            exact hp
          have hp2 : p.2 = L2 := by
            have hx := (lookupIdx_eq_some_iff_mem (invert B)
              (nodup_keys_invert B) a p.2).mpr hpmem
            rw [hcurr] at hx
            injection hx with h'
            exact h'.symm
          have hpl1 : pl = L1 := by
            rw [hpa, hprev] at hl
            injection hl with h'
            exact h'.symm
          rw [hm, hpa, hp2, hpl1]
        · rw [if_neg hplne] at hfp
          simp at hfp
  · show a ∉ idxKeys (invert B) \ idxKeys (invert A)
    rw [Finset.mem_sdiff]
    rintro ⟨_, hno⟩
    exact hno haprev
  · show a ∉ (idxKeys (invert A) \ idxKeys (invert B)).filter
      (fun x => ¬ is_defunct x = true)
    rw [Finset.mem_filter, Finset.mem_sdiff]
    rintro ⟨⟨_, hno⟩, _⟩
    exact hno hacurr

/-- C4 witness: the moved-asset triple on a concrete pair of snapshots. -/
theorem moved_asset_reported_witness :
    ("A1", "LOCAT1", "LOCAT2") ∈
      (report_asset_changes (fun _ => false) [("LOCAT1", ["A1"])]
        [("LOCAT2", ["A1"])]).moved_assets ∧
    "A1" ∉ (report_asset_changes (fun _ => false) [("LOCAT1", ["A1"])]
        [("LOCAT2", ["A1"])]).new_assets ∧
    "A1" ∉ (report_asset_changes (fun _ => false) [("LOCAT1", ["A1"])]
        [("LOCAT2", ["A1"])]).missing_assets :=
  ⟨(moved_asset_reported (fun _ => false) [("LOCAT1", ["A1"])]
      [("LOCAT2", ["A1"])] "A1" "LOCAT1" "LOCAT2" rfl rfl (by decide)).1,
   (moved_asset_reported (fun _ => false) [("LOCAT1", ["A1"])]
      [("LOCAT2", ["A1"])] "A1" "LOCAT1" "LOCAT2" rfl rfl (by decide)).2.2.1,
   (moved_asset_reported (fun _ => false) [("LOCAT1", ["A1"])]
      [("LOCAT2", ["A1"])] "A1" "LOCAT1" "LOCAT2" rfl rfl (by decide)).2.2.2⟩

/-- C5: the missing set is exactly the previous-index assets absent from
the current index with every defunct asset removed; in particular an
asset indexed previously, absent now, and flagged defunct is never
reported missing. -/
theorem defunct_asset_not_missing (is_defunct : TagId → Bool) (A B : Snapshot)
    (a : TagId)
    (hprev : (lookupIdx (invert A) a).isSome = true)
    (hcurr : lookupIdx (invert B) a = none)
    (hdef : is_defunct a = true) :
    a ∉ (report_asset_changes is_defunct A B).missing_assets ∧
    ∀ x : TagId, x ∈ (report_asset_changes is_defunct A B).missing_assets ↔
      (x ∈ idxKeys (invert A) ∧ x ∉ idxKeys (invert B) ∧
        is_defunct x = false) := by
  have hchar : ∀ x : TagId,
      x ∈ (report_asset_changes is_defunct A B).missing_assets ↔
      (x ∈ idxKeys (invert A) ∧ x ∉ idxKeys (invert B) ∧
        is_defunct x = false) := by
    intro x
    show x ∈ (idxKeys (invert A) \ idxKeys (invert B)).filter
      (fun y => ¬ is_defunct y = true) ↔ _
    rw [Finset.mem_filter, Finset.mem_sdiff]
    rw [Bool.not_eq_true (is_defunct x)]
    tauto
  refine ⟨?_, hchar⟩
  rw [hchar a]
  rintro ⟨_, _, hfd⟩
  rw [hdef] at hfd
  exact Bool.true_eq_false.mp hfd

/-- C5 witness: a defunct asset that vanished is not reported missing. -/
theorem defunct_asset_not_missing_witness :
    "A1" ∉ (report_asset_changes (fun t => t == "A1") [("LOCAT1", ["A1"])]
      [("LOCAT1", [])]).missing_assets :=
  (defunct_asset_not_missing (fun t => t == "A1") [("LOCAT1", ["A1"])]
    [("LOCAT1", [])] "A1" rfl rfl (by decide)).1

/-- C6: with no asset marked defunct, the new set of diff(A, B) is the
missing set of diff(B, A), and conversely. -/
theorem diff_symmetry (is_defunct : TagId → Bool) (A B : Snapshot)
    (h : ∀ x : TagId, is_defunct x = false) :
    (report_asset_changes is_defunct A B).new_assets =
      (report_asset_changes is_defunct B A).missing_assets ∧
    (report_asset_changes is_defunct A B).missing_assets =
      (report_asset_changes is_defunct B A).new_assets := by
  constructor
  · show idxKeys (invert B) \ idxKeys (invert A) =
      (idxKeys (invert B) \ idxKeys (invert A)).filter
        (fun y => ¬ is_defunct y = true)
    rw [Finset.filter_true_of_mem]
    intro x _
    simp [h x]
  · show (idxKeys (invert A) \ idxKeys (invert B)).filter
        (fun y => ¬ is_defunct y = true) =
      idxKeys (invert A) \ idxKeys (invert B)
    rw [Finset.filter_true_of_mem]
    intro x _
    simp [h x]

/-- C6 witness: the symmetry evaluated on concrete snapshots with the
everywhere-false defunct predicate. -/
theorem diff_symmetry_witness :
    (report_asset_changes (fun _ => false) [("LOCAT1", ["A1"])]
        [("LOCAT2", ["A2"])]).new_assets =
      (report_asset_changes (fun _ => false) [("LOCAT2", ["A2"])]
        [("LOCAT1", ["A1"])]).missing_assets ∧
    (report_asset_changes (fun _ => false) [("LOCAT1", ["A1"])]
        [("LOCAT2", ["A2"])]).missing_assets =
      (report_asset_changes (fun _ => false) [("LOCAT2", ["A2"])]
        [("LOCAT1", ["A1"])]).new_assets :=
  diff_symmetry (fun _ => false) [("LOCAT1", ["A1"])] [("LOCAT2", ["A2"])]
    (fun _ => rfl)

/-- Modelled from the spec, for comparison only (the claim's reading of
the raw progress percentage): the round-down integer percentage of the
known locations that are present as keys in the current snapshot. -/
def claimed_raw_scan_percentage (curr_assets : Snapshot)
    (all_locations : Finset String) : Nat :=
  (all_locations ∩ snapKeys curr_assets).card * 100 / all_locations.card

/-- C7 counterexample: a snapshot whose only key is not a known location —
the code's raw percentage counts it anyway and yields 100, while the
claim's intersection-based percentage is 0. -/
theorem raw_percentage_counterexample :
    raw_scan_percentage [("LOCAT9", [])] {"LOCAT1"} = 100 ∧
    claimed_raw_scan_percentage [("LOCAT9", [])] {"LOCAT1"} = 0 := by
  constructor <;> decide

/-- C7 (amended): the raw percentage is the floor of
`100 · |snapshot keys| / |known locations|`, counting every snapshot key
whether or not it is known (zero-asset locations included); when every
snapshot key is a known location this coincides with the claim's
floor-percentage of known locations present as keys. -/
theorem raw_percentage_counts_all_keys (curr : Snapshot)
    (all_locations : Finset String)
    (h : snapKeys curr ⊆ all_locations) :
    raw_scan_percentage curr all_locations =
      (all_locations ∩ snapKeys curr).card * 100 / all_locations.card := by
  rw [raw_scan_percentage, Finset.inter_eq_right.mpr h]

/-- C7 witness: the amended equation on a snapshot whose key is known. -/
theorem raw_percentage_counts_all_keys_witness :
    raw_scan_percentage [("LOCAT1", [])] {"LOCAT1", "LOCAT2"} =
      (({"LOCAT1", "LOCAT2"} : Finset String) ∩
        snapKeys [("LOCAT1", [])]).card * 100 /
      ({"LOCAT1", "LOCAT2"} : Finset String).card :=
  raw_percentage_counts_all_keys [("LOCAT1", [])] {"LOCAT1", "LOCAT2"}
    (by decide)

/-- C8: for a non-empty known-location set, the displayed percentage is
always within [1, 100]: a raw value of 0 is floored to 1, and a value
exceeding 100 is capped at 100. -/
theorem displayed_percentage_bounds (curr : Snapshot)
    (all_locations : Finset String)
    (h : all_locations.Nonempty) :
    1 ≤ report_scan_percentage curr all_locations ∧
    report_scan_percentage curr all_locations ≤ 100 := by
  simp only [report_scan_percentage]
  split_ifs <;> omega

/-- C8 witness: an empty snapshot against one known location — the raw
percentage 0 is floored to the displayed 1. -/
theorem displayed_percentage_bounds_witness :
    1 ≤ report_scan_percentage [] {"LOCAT1"} ∧
    report_scan_percentage [] {"LOCAT1"} ≤ 100 :=
  displayed_percentage_bounds [] {"LOCAT1"} ⟨"LOCAT1", by decide⟩

/-- C9: assembling a report from a store with zero ingested scans fails
with the empty-store error (no latest date exists) and produces no
report. -/
theorem empty_store_report_fails (is_defunct : TagId → Bool)
    (all_locations : Finset String) :
    gen_report is_defunct all_locations [] =
      Except.error ReportError.emptyStore :=
  rfl

end AssetReporter

